import Mathlib

/-!
Shallow embedding of the theoremkb web front-end resource layer
(`src/web/src/resources.tsx`) and the annotation-menu components
(`src/web/src/index/Paper/menu/AnnotationModel.tsx` and its unnamed
sibling component file), together with proofs of the specified
properties.

JavaScript objects with string (or character) keys are modelled as
association lists with pairwise-distinct keys; `undefined` string
values are modelled as `Option String` (JavaScript string
concatenation turns `undefined` into the text "undefined", which the
model makes explicit).  Functions that `throw` are modelled in
`Except String`.
-/

namespace ThKB

/-- JavaScript coercion of a possibly-`undefined` string to a string,
as performed by template literals and by `+` concatenation:
`undefined` becomes the text "undefined". -/
def jsShow : Option String → String
  | some s => s
  | none => "undefined"

/-- Property lookup on a JavaScript object modelled as an association
list (keys are pairwise distinct, so first match is the match). -/
def jsGet {κ α : Type} [DecidableEq κ] : List (κ × α) → κ → Option α
  | [], _ => none
  | (k, v) :: rest, c => if k = c then some v else jsGet rest c

/-- The keys of a JavaScript object modelled as an association list. -/
def jsKeys {κ α : Type} (o : List (κ × α)) : List κ :=
  o.map Prod.fst

/-- JavaScript property assignment `o[k] = v`: an existing key keeps
its position and gets the new value, a fresh key is appended. -/
def objSet {κ α : Type} [DecidableEq κ] (o : List (κ × α)) (k : κ) (v : α) :
    List (κ × α) :=
  if k ∈ jsKeys o then o.map (fun kv => if kv.1 = k then (k, v) else kv)
  else o ++ [(k, v)]

/-- JavaScript object spread `{...a, ...b}`: the properties of `b`
are assigned over `a` in order. -/
def jsSpread {κ α : Type} [DecidableEq κ] (a b : List (κ × α)) : List (κ × α) :=
  b.foldl (fun o kv => objSet o kv.1 kv.2) a

/-! ## Label shortcut derivation

From `ModelHeaderSelectTag` / `ClassHeaderSelectTag`:

    const shortcuts = labels.reduce((sc, label) => {
      for (let c of label) {
        if (!(c in sc)) { return { ...sc, [c]: label }; }
      }
      console.log("Warning: unable to deduce shortcut for ", label);
      return sc;
    }, {});
-/

/-- The inner `for (let c of label)` loop: the first character of the
label that is not yet a key of the accumulator, if any. -/
def firstUnclaimed (sc : List (Char × String)) : List Char → Option Char
  | [] => none
  | c :: cs => if c ∈ jsKeys sc then firstUnclaimed sc cs else some c

/-- One step of the `reduce`: bind the first unclaimed character of
`label` to `label` (spreading onto a fresh key appends it), or leave
the accumulator unchanged when every character is claimed. -/
def stepShortcut (sc : List (Char × String)) (label : String) :
    List (Char × String) :=
  match firstUnclaimed sc label.data with
  | some c => sc ++ [(c, label)]
  | none => sc

/-- The full `reduce` deriving the shortcut map from the label list. -/
def shortcuts (labels : List String) : List (Char × String) :=
  labels.foldl stepShortcut []

/-- One step of the `reduce`, additionally recording the
`console.log` warning emitted when a label gets no shortcut. -/
def stepShortcutLog (p : List (Char × String) × List String) (label : String) :
    List (Char × String) × List String :=
  match firstUnclaimed p.1 label.data with
  | some c => (p.1 ++ [(c, label)], p.2)
  | none => (p.1, p.2 ++ [label])

/-- The shortcut map together with the list of labels warned about. -/
def shortcutsLog (labels : List String) : List (Char × String) × List String :=
  labels.foldl stepShortcutLog ([], [])

/-! ## `URLSearchParams` model

`new URLSearchParams(obj)` takes the entries of the object,
`params.sort()` stably sorts them by key, and `params.toString()`
serializes them in `application/x-www-form-urlencoded` form. -/

/-- UTF-8 bytes of a Unicode code point. -/
def utf8Bytes (c : Char) : List Nat :=
  let n := c.toNat
  if n < 0x80 then [n]
  else if n < 0x800 then [0xC0 + n / 0x40, 0x80 + n % 0x40]
  else if n < 0x10000 then
    [0xE0 + n / 0x1000, 0x80 + (n / 0x40) % 0x40, 0x80 + n % 0x40]
  else
    [0xF0 + n / 0x40000, 0x80 + (n / 0x1000) % 0x40,
      0x80 + (n / 0x40) % 0x40, 0x80 + n % 0x40]

/-- Uppercase hexadecimal digit. -/
def hexUpper (n : Nat) : Char :=
  if n < 10 then Char.ofNat (48 + n) else Char.ofNat (55 + n)

/-- Form-urlencoding of one character: ASCII alphanumerics and
`*`, `-`, `.`, `_` pass through, space becomes `+`, everything else
is percent-encoded per UTF-8 byte. -/
def formEncodeChar (c : Char) : String :=
  if c.isAlphanum ∨ c = '*' ∨ c = '-' ∨ c = '.' ∨ c = '_' then
    String.singleton c
  else if c = ' ' then "+"
  else String.join ((utf8Bytes c).map (fun b =>
    String.singleton '%' ++ String.singleton (hexUpper (b / 16)) ++
      String.singleton (hexUpper (b % 16))))

/-- Form-urlencoding of a string. -/
def formEncode (s : String) : String :=
  String.join (s.data.map formEncodeChar)

/-- Model of `params.sort()`: stable sort of the entries by key. -/
def sortParams (ps : List (String × String)) : List (String × String) :=
  List.insertionSort (fun p q => p.1 ≤ q.1) ps

/-- Model of `params.sort(); params.toString()`: sorted entries
serialized as `k=v` joined by `&`. -/
def serializeParams (ps : List (String × String)) : String :=
  String.intercalate "&"
    ((sortParams ps).map (fun kv => formEncode kv.1 ++ "=" ++ formEncode kv.2))

/-! ## Resource primary keys and URL builders (`resources.tsx`) -/

namespace LayerResource

/-- The fields of `LayerResource`. -/
structure Layer where
  id : String
  paperId : String
  kind : String
  name : String
  training : Bool

/-- Model of `LayerResource.pk`: `this.paperId + "-" + this.id`. -/
def pk (l : Layer) : String :=
  l.paperId ++ "-" ++ l.id

/-- The params object handed to `LayerResource.url`; either id may be
absent at runtime (`undefined`). -/
structure UrlParams where
  paperId : Option String
  id : Option String

/-- Model of `this.pk(urlParams)` as executed by JavaScript: string
concatenation of possibly-`undefined` fields always yields a string,
never `undefined`. -/
def pkParams (p : UrlParams) : Option String :=
  some (jsShow p.paperId ++ "-" ++ jsShow p.id)

/-- Model of `LayerResource.url`: returns the templated detail URL when the
params object is present and its pk is defined, otherwise throws
"Layers require paperId to retrieve". -/
def url (urlParams : Option UrlParams) : Except String String :=
  match urlParams with
  | some p =>
    if (pkParams p).isSome then
      Except.ok ("http://localhost:8000/papers/" ++ jsShow p.paperId ++
        "/layers/" ++ jsShow p.id)
    else Except.error "Layers require paperId to retrieve"
  | none => Except.error "Layers require paperId to retrieve"

/-- The object handed to `LayerResource.listUrl`: the `paperId`
property (possibly absent at runtime) plus the remaining query
parameters in insertion order (object keys are pairwise distinct). -/
structure SearchParams where
  paperId : Option String
  extra : List (String × String)

/-- Model of `Object.keys(searchParams).length`. -/
def keyCount (p : SearchParams) : Nat :=
  (if p.paperId.isSome then 1 else 0) + p.extra.length

/-- Model of `LayerResource.listUrl`: destructures `paperId` off the params,
serializes the rest sorted, when the params object is present and
non-empty; otherwise throws "Layers require paperId to retrieve". -/
def listUrl (searchParams : Option SearchParams) : Except String String :=
  match searchParams with
  | some p =>
    if keyCount p ≠ 0 then
      Except.ok ("http://localhost:8000/papers/" ++ jsShow p.paperId ++
        "/layers/?" ++ serializeParams p.extra)
    else Except.error "Layers require paperId to retrieve"
  | none => Except.error "Layers require paperId to retrieve"

end LayerResource

namespace AnnotationResource

/-- The fields of `AnnotationResource`. -/
structure Annot where
  id : String
  paperId : String
  layerId : String
  min_h : Int
  max_h : Int
  min_v : Int
  max_v : Int
  page_num : Int
  label : String

/-- Model of `AnnotationResource.pk`:
`this.paperId + "-" + this.layerId + "-" + this.id`. -/
def pk (a : Annot) : String :=
  a.paperId ++ "-" ++ a.layerId ++ "-" ++ a.id

/-- The params object handed to `AnnotationResource.url`. -/
structure UrlParams where
  paperId : Option String
  layerId : Option String
  id : Option String

/-- Model of `this.pk(urlParams)` as executed by JavaScript (always a string). -/
def pkParams (p : UrlParams) : Option String :=
  some (jsShow p.paperId ++ "-" ++ jsShow p.layerId ++ "-" ++ jsShow p.id)

/-- Model of `AnnotationResource.url`: templated detail URL when the params
object is present and its pk is defined, otherwise throws. -/
def url (urlParams : Option UrlParams) : Except String String :=
  match urlParams with
  | some p =>
    if (pkParams p).isSome then
      Except.ok ("http://localhost:8000/papers/" ++ jsShow p.paperId ++
        "/layers/" ++ jsShow p.layerId ++ "/bbx/" ++ jsShow p.id)
    else Except.error "Layers require paperId and layerId to retrieve"
  | none => Except.error "Layers require paperId and layerId to retrieve"

/-- The object handed to `AnnotationResource.listUrl`: the `paperId`
and `layerId` properties (possibly absent at runtime) plus the
remaining query parameters in insertion order. -/
structure SearchParams where
  paperId : Option String
  layerId : Option String
  extra : List (String × String)

/-- Model of `Object.keys(searchParams).length`. -/
def keyCount (p : SearchParams) : Nat :=
  (if p.paperId.isSome then 1 else 0) + (if p.layerId.isSome then 1 else 0) +
    p.extra.length

/-- Model of `AnnotationResource.listUrl`: destructures `paperId` and `layerId`
off the params, serializes the rest sorted, when the params object is
present and non-empty; otherwise throws. -/
def listUrl (searchParams : Option SearchParams) : Except String String :=
  match searchParams with
  | some p =>
    if keyCount p ≠ 0 then
      Except.ok ("http://localhost:8000/papers/" ++ jsShow p.paperId ++
        "/layers/" ++ jsShow p.layerId ++ "/bbx/?" ++
        serializeParams p.extra)
    else Except.error "Layers require paperId and layerId to retrieve"
  | none => Except.error "Layers require paperId and layerId to retrieve"

/-- Model of the `optimisticUpdate` callback in
`AnnotationResource.updateShape`:
`(params, body) => ({ id: params.id, ...body })`.  The record written
to the cache is the patch body spread over the record holding only
the id from the request params. -/
def optimisticUpdate {α : Type} (paramsId : α) (body : List (String × α)) :
    List (String × α) :=
  jsSpread [("id", paramsId)] body

end AnnotationResource

/-! ## Shortcut highlighting and the layer-creation handlers
(`AnnotationModel.tsx` and the unnamed sibling component file) -/

/-- Model of `_.findKey(shortcuts, (v) => v == value)`: the first key
(in insertion order) whose value equals `value`. -/
def findKey (sc : List (Char × String)) (value : String) : Option Char :=
  match sc with
  | [] => none
  | (k, v) :: rest => if v = value then some k else findKey rest value

/-- A piece of a rendered button label: a plain character or the
shortcut character wrapped as `<b>[c]</b>`. -/
inductive RenderItem : Type where
  | plain : Char → RenderItem
  | bold : Char → RenderItem
deriving DecidableEq

/-- The `for (let c of value)` loop of `highlightShortcut`: the first
character equal to the pending shortcut is emitted bold and the
shortcut is cleared (`shortcut = null`); all others stay plain. -/
def hlGo : Option Char → List Char → List RenderItem
  | _, [] => []
  | none, c :: cs => RenderItem.plain c :: hlGo none cs
  | some s, c :: cs =>
    if c = s then RenderItem.bold c :: hlGo none cs
    else RenderItem.plain c :: hlGo (some s) cs

/-- Model of `highlightShortcut(value)`: look up the shortcut key for
this label and bold its first occurrence in the label text. -/
def highlightShortcut (sc : List (Char × String)) (value : String) :
    List RenderItem :=
  hlGo (findKey sc value) value.data

/-- The request body built by `createAnnotationLayer(name, from)`:
`{ kind: model_id, training: false, from, name }`. -/
structure LayerCreateBody where
  kind : String
  training : Bool
  from_ : Option String
  name : String
deriving DecidableEq

/-- Request body of `createAnnotationLayer(name, from)`. -/
def createAnnotationLayerBody (model_id name : String)
    (from_ : Option String) : LayerCreateBody :=
  ⟨model_id, false, from_, name⟩

/-- The body sent by the "+new" / "+layer" button:
`createAnnotationLayer("Untitled")`, so `from` is `undefined`. -/
def newButtonBody (model_id : String) : LayerCreateBody :=
  createAnnotationLayerBody model_id "Untitled" none

/-- The create-shape cache updater:
`(newLayerId, currentLayers) => [...(currentLayers || []), newLayerId]`. -/
def listUpdater (newLayerId : String) (currentLayers : Option (List String)) :
    List String :=
  currentLayers.getD [] ++ [newLayerId]

/-- The mutable state of the `<select>` element driving
"apply model" / "+from model". -/
structure SelectState where
  disabled : Bool
  value : String
deriving DecidableEq

/-- The JSON body of a failed response, as assumed by the handler
(`let error = await e.response.json(); alert.error(error.message)`). -/
structure ErrorResponse where
  message : String
deriving DecidableEq

/-- Model of the select `onChange` handler, on the request outcome:
when the value is non-empty it sends
`createAnnotationLayer("from." + value, value)`; a failure is caught
and its `message` alerted; afterwards the control is re-enabled and
its value reset.  Returns the final state, the request body sent (if
any), and the alerts shown. -/
def selectOnChange (model_id : String) (st : SelectState)
    (result : Except ErrorResponse Unit) :
    SelectState × Option LayerCreateBody × List String :=
  if st.value = "" then (st, none, [])
  else
    let body := createAnnotationLayerBody model_id ("from." ++ st.value)
      (some st.value)
    match result with
    | Except.ok _ => (⟨false, ""⟩, some body, [])
    | Except.error err => (⟨false, ""⟩, some body, [err.message])

/-! ## Lemmas on association-list lookup -/

theorem jsGet_append_some {κ α : Type} [DecidableEq κ] {a : List (κ × α)}
    {k : κ} {v : α} (h : jsGet a k = some v) (b : List (κ × α)) :
    jsGet (a ++ b) k = some v := by
  induction a with
  | nil => simp [jsGet] at h
  | cons kv rest ih =>
    obtain ⟨k₀, v₀⟩ := kv
    by_cases hk : k₀ = k
    · simp [jsGet, hk] at h ⊢
      exact h
    · simp [jsGet, hk] at h ⊢
      exact ih h

theorem jsGet_append_none {κ α : Type} [DecidableEq κ] {a : List (κ × α)}
    {k : κ} (h : jsGet a k = none) (b : List (κ × α)) :
    jsGet (a ++ b) k = jsGet b k := by
  induction a with
  | nil => simp
  | cons kv rest ih =>
    obtain ⟨k₀, v₀⟩ := kv
    by_cases hk : k₀ = k
    · simp [jsGet, hk] at h
    · simp [jsGet, hk] at h ⊢
      exact ih h

theorem jsGet_eq_none_of_not_mem {κ α : Type} [DecidableEq κ]
    {o : List (κ × α)} {k : κ} (h : k ∉ jsKeys o) : jsGet o k = none := by
  induction o with
  | nil => rfl
  | cons kv rest ih =>
    obtain ⟨k₀, v₀⟩ := kv
    simp [jsKeys] at h
    have h1 : k₀ ≠ k := fun e => h.1 e.symm
    simp [jsGet, h1]
    exact ih (by simpa [jsKeys] using h.2)

/-! ## Lemmas on the shortcut derivation -/

theorem firstUnclaimed_eq_none {sc : List (Char × String)} {cs : List Char}
    (h : ∀ c ∈ cs, c ∈ jsKeys sc) : firstUnclaimed sc cs = none := by
  induction cs with
  | nil => rfl
  | cons c cs ih =>
    have hc : c ∈ jsKeys sc := h c (by simp)
    simp [firstUnclaimed, hc]
    exact ih (fun x hx => h x (by simp [hx]))

theorem firstUnclaimed_not_mem {sc : List (Char × String)} {cs : List Char}
    {c : Char} (h : firstUnclaimed sc cs = some c) : c ∉ jsKeys sc := by
  induction cs with
  | nil => simp [firstUnclaimed] at h
  | cons c₀ cs ih =>
    by_cases hc : c₀ ∈ jsKeys sc
    · simp [firstUnclaimed, hc] at h
      exact ih h
    · simp [firstUnclaimed, hc] at h
      exact h ▸ hc

theorem firstUnclaimed_mem {sc : List (Char × String)} {cs : List Char}
    {c : Char} (h : firstUnclaimed sc cs = some c) : c ∈ cs := by
  induction cs with
  | nil => simp [firstUnclaimed] at h
  | cons c₀ cs ih =>
    by_cases hc : c₀ ∈ jsKeys sc
    · simp [firstUnclaimed, hc] at h
      simp [ih h]
    · simp [firstUnclaimed, hc] at h
      simp [h]

theorem stepShortcut_jsGet_some {sc : List (Char × String)} {c : Char}
    {l : String} (h : jsGet sc c = some l) (x : String) :
    jsGet (stepShortcut sc x) c = some l := by
  unfold stepShortcut
  cases firstUnclaimed sc x.data with
  | none => exact h
  | some c₀ => exact jsGet_append_some h _

theorem foldl_stepShortcut_jsGet_some {c : Char} {l : String} :
    ∀ (labels : List String) (sc : List (Char × String)),
      jsGet sc c = some l →
      jsGet (List.foldl stepShortcut sc labels) c = some l := by
  intro labels
  induction labels with
  | nil => intro sc h; exact h
  | cons x rest ih =>
    intro sc h
    exact ih (stepShortcut sc x) (stepShortcut_jsGet_some h x)

theorem shortcutsLog_fst :
    ∀ (labels : List String) (sc : List (Char × String)) (w : List String),
      (List.foldl stepShortcutLog (sc, w) labels).1 =
        List.foldl stepShortcut sc labels := by
  intro labels
  induction labels with
  | nil => intro sc w; rfl
  | cons x rest ih =>
    intro sc w
    show (List.foldl stepShortcutLog (stepShortcutLog (sc, w) x) rest).1 =
      List.foldl stepShortcut (stepShortcut sc x) rest
    unfold stepShortcutLog stepShortcut
    cases firstUnclaimed sc x.data with
    | none => exact ih sc (w ++ [x])
    | some c => exact ih (sc ++ [(c, x)]) w

theorem shortcutsLog_snd_mono :
    ∀ (labels : List String) (p : List (Char × String) × List String)
      (x : String), x ∈ p.2 → x ∈ (List.foldl stepShortcutLog p labels).2 := by
  intro labels
  induction labels with
  | nil => intro p x h; exact h
  | cons y rest ih =>
    intro p x h
    refine ih (stepShortcutLog p y) x ?_
    unfold stepShortcutLog
    cases firstUnclaimed p.1 y.data with
    | none => simp [h]
    | some c => exact h

theorem shortcuts_append (xs ys : List String) :
    shortcuts (xs ++ ys) = List.foldl stepShortcut (shortcuts xs) ys := by
  unfold shortcuts
  exact List.foldl_append _ _ _ _

/-! ## Claim theorems: shortcut derivation -/

/-- C2: the shortcut derivation assigns each label the first character
of that label (scanning left-to-right) not already claimed by an
earlier label — so looking that character up in the final map yields
the label — and on `["cat", "car", "dog"]` it produces exactly
`c→cat`, `a→car`, `d→dog`. -/
theorem claim_C2_shortcut_first_unclaimed :
    (∀ (pre post : List String) (l : String) (c : Char),
      firstUnclaimed (shortcuts pre) l.data = some c →
      jsGet (shortcuts (pre ++ l :: post)) c = some l)
    ∧ shortcuts ["cat", "car", "dog"] =
        [('c', "cat"), ('a', "car"), ('d', "dog")] := by
  constructor
  · intro pre post l c h
    rw [shortcuts_append]
    show jsGet (List.foldl stepShortcut (stepShortcut (shortcuts pre) l) post)
      c = some l
    have hstep : stepShortcut (shortcuts pre) l = shortcuts pre ++ [(c, l)] := by
      unfold stepShortcut
      rw [h]
    rw [hstep]
    refine foldl_stepShortcut_jsGet_some post _ ?_
    have hnone : jsGet (shortcuts pre) c = none :=
      jsGet_eq_none_of_not_mem (firstUnclaimed_not_mem h)
    rw [jsGet_append_none hnone]
    simp [jsGet]
  · decide

/-- C2 witness: in `["cat", "car", "dog"]`, the label "car" gets
shortcut 'a' ('c' being claimed by "cat"). -/
theorem claim_C2_witness :
    jsGet (shortcuts (["cat"] ++ "car" :: ["dog"])) 'a' = some "car" :=
  claim_C2_shortcut_first_unclaimed.1 ["cat"] ["dog"] "car" 'a' (by decide)

/-- C7: a label all of whose characters are already claimed by the
earlier labels receives no shortcut (the accumulator is unchanged at
its step), the label is recorded in the emitted warnings, and the
derivation continues exactly as if the label were absent. -/
theorem claim_C7_unresolvable_label :
    ∀ (pre post : List String) (l : String),
      (∀ c ∈ l.data, c ∈ jsKeys (shortcuts pre)) →
      stepShortcut (shortcuts pre) l = shortcuts pre
      ∧ l ∈ (shortcutsLog (pre ++ l :: post)).2
      ∧ shortcuts (pre ++ l :: post) = shortcuts (pre ++ post) := by
  intro pre post l h
  have hn : firstUnclaimed (shortcuts pre) l.data = none :=
    firstUnclaimed_eq_none h
  have hstep : stepShortcut (shortcuts pre) l = shortcuts pre := by
    unfold stepShortcut
    rw [hn]
  refine ⟨hstep, ?_, ?_⟩
  · show l ∈ (List.foldl stepShortcutLog ([], []) (pre ++ l :: post)).2
    rw [List.foldl_append]
    cases hsl : List.foldl stepShortcutLog (([] : List (Char × String)),
        ([] : List String)) pre with
    | mk S W =>
      have hfst : S = shortcuts pre := by
        have hs := shortcutsLog_fst pre [] []
        rw [hsl] at hs
        exact hs
      show l ∈ (List.foldl stepShortcutLog (stepShortcutLog (S, W) l) post).2
      have hlog : stepShortcutLog (S, W) l = (S, W ++ [l]) := by
        simp [stepShortcutLog, hfst, hn]
      rw [hlog]
      exact shortcutsLog_snd_mono post _ l (by simp)
  · rw [shortcuts_append]
    show List.foldl stepShortcut (stepShortcut (shortcuts pre) l) post =
      shortcuts (pre ++ post)
    rw [hstep, shortcuts_append]

/-- C7 witness: with earlier labels "a" and "b", the label "ab" has
every character claimed and lands in the warning list. -/
theorem claim_C7_witness : "ab" ∈ (shortcutsLog (["a", "b"] ++ "ab" :: [])).2 :=
  (claim_C7_unresolvable_label ["a", "b"] [] "ab" (by decide)).2.1

theorem shortcuts_snd_sublist :
    ∀ (labels : List String) (sc : List (Char × String)),
      ((List.foldl stepShortcut sc labels).map Prod.snd).Sublist
        (sc.map Prod.snd ++ labels) := by
  intro labels
  induction labels with
  | nil => intro sc; simp
  | cons l rest ih =>
    intro sc
    show ((List.foldl stepShortcut (stepShortcut sc l) rest).map
      Prod.snd).Sublist (sc.map Prod.snd ++ l :: rest)
    unfold stepShortcut
    cases firstUnclaimed sc l.data with
    | none =>
      refine (ih sc).trans ?_
      exact List.Sublist.append_left (List.sublist_cons_self l rest) _
    | some c =>
      have h := ih (sc ++ [(c, l)])
      rw [List.map_append] at h
      simpa using h

theorem shortcuts_keys_nodup :
    ∀ (labels : List String) (sc : List (Char × String)),
      (jsKeys sc).Nodup → (jsKeys (List.foldl stepShortcut sc labels)).Nodup := by
  intro labels
  induction labels with
  | nil => intro sc h; exact h
  | cons l rest ih =>
    intro sc h
    show (jsKeys (List.foldl stepShortcut (stepShortcut sc l) rest)).Nodup
    refine ih _ ?_
    unfold stepShortcut
    cases hf : firstUnclaimed sc l.data with
    | none => exact h
    | some c =>
      have hc : c ∉ jsKeys sc := firstUnclaimed_not_mem hf
      simp [jsKeys] at h hc ⊢
      simp [List.nodup_append, h, hc]

theorem shortcuts_char_mem :
    ∀ (labels : List String) (sc : List (Char × String)),
      (∀ p ∈ sc, p.1 ∈ p.2.data) →
      ∀ p ∈ List.foldl stepShortcut sc labels, p.1 ∈ p.2.data := by
  intro labels
  induction labels with
  | nil => intro sc h; exact h
  | cons l rest ih =>
    intro sc h
    show ∀ p ∈ List.foldl stepShortcut (stepShortcut sc l) rest, p.1 ∈ p.2.data
    refine ih _ ?_
    unfold stepShortcut
    cases hf : firstUnclaimed sc l.data with
    | none => exact h
    | some c =>
      intro p hp
      rcases List.mem_append.mp hp with hin | hnew
      · exact h p hin
      · have : p = (c, l) := by simpa using hnew
        rw [this]
        exact firstUnclaimed_mem hf

/-- C9 counterexample: on the input `["ab", "ab"]` (a duplicated
label) the derivation yields `a→ab` and `b→ab`, so two distinct
shortcut characters map to the same label and that label is the
target of two shortcut characters. -/
theorem claim_C9_counterexample :
    ¬ (∀ p ∈ shortcuts ["ab", "ab"], ∀ q ∈ shortcuts ["ab", "ab"],
        p.1 ≠ q.1 → p.2 ≠ q.2) := by decide

/-- C9 (amended to pairwise-distinct input labels): the derived map
is injective in both directions — entries with the same character
coincide, entries with the same label coincide — and every shortcut
character occurs in the label it maps to (the last part holds for
arbitrary input). -/
theorem claim_C9_amended_injective :
    ∀ (labels : List String), labels.Nodup →
      (∀ p ∈ shortcuts labels, ∀ q ∈ shortcuts labels, p.1 = q.1 → p = q)
      ∧ (∀ p ∈ shortcuts labels, ∀ q ∈ shortcuts labels, p.2 = q.2 → p = q)
      ∧ (∀ p ∈ shortcuts labels, p.1 ∈ p.2.data) := by
  intro labels hnd
  refine ⟨?_, ?_, ?_⟩
  · have hk : ((shortcuts labels).map Prod.fst).Nodup :=
      shortcuts_keys_nodup labels [] (by simp [jsKeys])
    intro p hp q hq hpq
    exact List.inj_on_of_nodup_map hk hp hq hpq
  · have hsub : ((shortcuts labels).map Prod.snd).Sublist labels := by
      have h := shortcuts_snd_sublist labels []
      simpa using h
    have hv : ((shortcuts labels).map Prod.snd).Nodup :=
      List.Nodup.sublist hsub hnd
    intro p hp q hq hpq
    exact List.inj_on_of_nodup_map hv hp hq hpq
  · exact shortcuts_char_mem labels [] (by simp)

/-- C9 witness: on the distinct labels `["cat", "car"]` the
character-injectivity applied to the entry `('c', "cat")` against
itself. -/
theorem claim_C9_witness : (('c', "cat") : Char × String) = ('c', "cat") :=
  (claim_C9_amended_injective ["cat", "car"] (by decide)).1
    ('c', "cat") (by decide) ('c', "cat") (by decide) rfl

/-! ## Claim theorems: primary keys and URL builders -/

/-- C3: the layer primary key is `paperId + "-" + id`, the
annotation primary key is `paperId + "-" + layerId + "-" + id`; in particular
("P1", "L1") gives "P1-L1" and ("P1", "L1", "A1") gives "P1-L1-A1". -/
theorem claim_C3_pk_composition :
    (∀ l : LayerResource.Layer, LayerResource.pk l = l.paperId ++ "-" ++ l.id)
    ∧ (∀ a : AnnotationResource.Annot,
        AnnotationResource.pk a = a.paperId ++ "-" ++ a.layerId ++ "-" ++ a.id)
    ∧ LayerResource.pk ⟨"L1", "P1", "", "", false⟩ = "P1-L1"
    ∧ AnnotationResource.pk ⟨"A1", "P1", "L1", 0, 0, 0, 0, 0, ""⟩ =
        "P1-L1-A1" :=
  ⟨fun _ => rfl, fun _ => rfl, rfl, rfl⟩

/-- C1 (claim fails; code bug): a params object that is present but
lacks the required ancestor ids does NOT throw — JavaScript string
concatenation makes the pk guard `this.pk(urlParams) !== undefined`
always pass — so the builders return malformed URLs containing the
text "undefined".  Only a wholly absent (or, for `listUrl`, empty)
params object throws the descriptive error. -/
theorem claim_C1_missing_ancestor_eval :
    LayerResource.url (some ⟨none, some "L1"⟩) =
      Except.ok "http://localhost:8000/papers/undefined/layers/L1"
    ∧ LayerResource.listUrl (some ⟨none, [("q", "x")]⟩) =
      Except.ok "http://localhost:8000/papers/undefined/layers/?q=x"
    ∧ AnnotationResource.url (some ⟨none, none, some "A1"⟩) =
      Except.ok "http://localhost:8000/papers/undefined/layers/undefined/bbx/A1"
    ∧ AnnotationResource.listUrl (some ⟨some "P1", none, [("q", "x")]⟩) =
      Except.ok "http://localhost:8000/papers/P1/layers/undefined/bbx/?q=x"
    ∧ LayerResource.url none = Except.error "Layers require paperId to retrieve"
    ∧ AnnotationResource.url none =
      Except.error "Layers require paperId and layerId to retrieve" :=
  ⟨rfl, rfl, rfl, rfl, rfl, rfl⟩

/-! ## Claim theorems: layer creation handlers -/

/-- C5: the "+new" / "+layer" button sends name "Untitled" with no
source extractor (`from` is `undefined`), and the cache updater
appends the id of the new layer to the cached list (a missing cache entry
acting as the empty list). -/
theorem claim_C5_create_untitled :
    ∀ (model_id newLayerId : String) (cur : List String),
      (newButtonBody model_id).name = "Untitled"
      ∧ (newButtonBody model_id).from_ = none
      ∧ listUpdater newLayerId (some cur) = cur ++ [newLayerId]
      ∧ listUpdater newLayerId none = [newLayerId] :=
  fun _ _ _ => ⟨rfl, rfl, rfl, rfl⟩

/-- C6: when the select triggers `createAnnotationLayer("from." + X, X)`
and the server fails, the handler re-enables the control (disabled
false, value "") and alerts the `message` field of the JSON error
body. -/
theorem claim_C6_failure_reenables :
    ∀ (model_id : String) (st : SelectState) (err : ErrorResponse),
      st.value ≠ "" →
      selectOnChange model_id st (Except.error err) =
        (⟨false, ""⟩, some (createAnnotationLayerBody model_id
          ("from." ++ st.value) (some st.value)), [err.message]) := by
  intro m st err h
  simp [selectOnChange, h]

/-- C6 witness: selecting extractor "X" while the server answers
failure "boom" resets the control and alerts "boom". -/
theorem claim_C6_witness :
    selectOnChange "seg" ⟨false, "X"⟩ (Except.error ⟨"boom"⟩) =
      (⟨false, ""⟩, some (createAnnotationLayerBody "seg" "from.X"
        (some "X")), ["boom"]) :=
  claim_C6_failure_reenables "seg" ⟨false, "X"⟩ ⟨"boom"⟩ (by decide)

/-! ## Claim theorems: shortcut highlighting -/

theorem hlGo_none (cs : List Char) : hlGo none cs = cs.map RenderItem.plain := by
  induction cs with
  | nil => rfl
  | cons c cs ih => simp [hlGo, ih]

theorem hlGo_some {c : Char} :
    ∀ (pre post : List Char), c ∉ pre →
      hlGo (some c) (pre ++ c :: post) =
        pre.map RenderItem.plain ++
          RenderItem.bold c :: post.map RenderItem.plain := by
  intro pre
  induction pre with
  | nil =>
    intro post _
    simp [hlGo, hlGo_none]
  | cons a pre ih =>
    intro post h
    have ha : a ≠ c := by
      intro e
      exact h (by simp [e])
    simp [hlGo, ha, ih post (fun hc => h (by simp [hc]))]

/-- C8: a label whose shortcut lookup succeeds is rendered with
exactly the first occurrence of the shortcut character bolded
(bracket-wrapped) and every other character plain; a label with no
shortcut is rendered entirely plain. -/
theorem claim_C8_highlight :
    ∀ (sc : List (Char × String)) (value : String),
      (findKey sc value = none →
        highlightShortcut sc value = value.data.map RenderItem.plain)
      ∧ (∀ (c : Char) (pre post : List Char),
          findKey sc value = some c → value.data = pre ++ c :: post →
          c ∉ pre →
          highlightShortcut sc value =
            pre.map RenderItem.plain ++
              RenderItem.bold c :: post.map RenderItem.plain) := by
  intro sc value
  constructor
  · intro h
    unfold highlightShortcut
    rw [h, hlGo_none]
  · intro c pre post hf hsplit hmem
    unfold highlightShortcut
    rw [hf, hsplit, hlGo_some pre post hmem]

/-- C8 witness: with shortcut map `a→car`, the label "car" renders as
plain 'c', bold 'a', plain 'r'. -/
theorem claim_C8_witness :
    highlightShortcut [('a', "car")] "car" =
      [RenderItem.plain 'c', RenderItem.bold 'a', RenderItem.plain 'r'] :=
  (claim_C8_highlight [('a', "car")] "car").2 'a' ['c'] ['r']
    (by decide) (by decide) (by decide)

/-! ## Lemmas on JavaScript object assignment and spread (C10) -/

theorem jsGet_cons {κ α : Type} [DecidableEq κ] (k₀ k : κ) (v₀ : α)
    (rest : List (κ × α)) :
    jsGet ((k₀, v₀) :: rest) k = if k₀ = k then some v₀ else jsGet rest k :=
  rfl

theorem jsGet_map_set_self {κ α : Type} [DecidableEq κ] {k : κ} (v : α) :
    ∀ (o : List (κ × α)), k ∈ jsKeys o →
      jsGet (o.map (fun kv => if kv.1 = k then (k, v) else kv)) k = some v := by
  intro o
  induction o with
  | nil => intro hm; simp [jsKeys] at hm
  | cons kv rest ih =>
    obtain ⟨k₀, v₀⟩ := kv
    intro hm
    show jsGet ((if k₀ = k then (k, v) else (k₀, v₀)) :: _) k = some v
    by_cases hk : k₀ = k
    · rw [if_pos hk, jsGet_cons, if_pos rfl]
    · rw [if_neg hk, jsGet_cons, if_neg hk]
      refine ih ?_
      simp [jsKeys] at hm
      rcases hm with he | hr
      · exact absurd he.symm hk
      · simpa [jsKeys] using hr

theorem objSet_get_self {κ α : Type} [DecidableEq κ] (o : List (κ × α))
    (k : κ) (v : α) : jsGet (objSet o k v) k = some v := by
  unfold objSet
  by_cases hm : k ∈ jsKeys o
  · simp only [hm, if_true]
    exact jsGet_map_set_self v o hm
  · simp only [hm, if_false]
    rw [jsGet_append_none (jsGet_eq_none_of_not_mem hm)]
    rw [jsGet_cons, if_pos rfl]

theorem jsGet_map_set_other {κ α : Type} [DecidableEq κ] {k k' : κ} (v : α)
    (h : k' ≠ k) :
    ∀ (o : List (κ × α)),
      jsGet (o.map (fun kv => if kv.1 = k then (k, v) else kv)) k' =
        jsGet o k' := by
  intro o
  induction o with
  | nil => rfl
  | cons kv rest ih =>
    obtain ⟨k₀, v₀⟩ := kv
    show jsGet ((if k₀ = k then (k, v) else (k₀, v₀)) :: _) k' = _
    by_cases hk : k₀ = k
    · have h1 : ¬ k = k' := fun e => h e.symm
      have h2 : ¬ k₀ = k' := fun e => h (e.symm.trans hk)
      rw [if_pos hk, jsGet_cons, if_neg h1, jsGet_cons, if_neg h2, ih]
    · by_cases hk'' : k₀ = k'
      · rw [if_neg hk, jsGet_cons, if_pos hk'', jsGet_cons, if_pos hk'']
      · rw [if_neg hk, jsGet_cons, if_neg hk'', jsGet_cons, if_neg hk'', ih]

theorem objSet_get_other {κ α : Type} [DecidableEq κ] (o : List (κ × α))
    {k k' : κ} (v : α) (h : k' ≠ k) :
    jsGet (objSet o k v) k' = jsGet o k' := by
  unfold objSet
  by_cases hm : k ∈ jsKeys o
  · simp only [hm, if_true]
    exact jsGet_map_set_other v h o
  · simp only [hm, if_false]
    cases hg : jsGet o k' with
    | some w => exact jsGet_append_some hg _
    | none =>
      rw [jsGet_append_none hg]
      have hne : k ≠ k' := fun e => h e.symm
      simp [jsGet, hne]

theorem objSet_keys_mem {κ α : Type} [DecidableEq κ] (o : List (κ × α))
    (k k' : κ) (v : α) :
    k' ∈ jsKeys (objSet o k v) ↔ k' ∈ jsKeys o ∨ k' = k := by
  unfold objSet
  by_cases hm : k ∈ jsKeys o
  · simp only [hm, if_true]
    have hkeys : jsKeys (o.map (fun kv => if kv.1 = k then (k, v) else kv)) =
        jsKeys o := by
      unfold jsKeys
      rw [List.map_map]
      refine List.map_congr_left ?_
      intro kv _
      by_cases hk : kv.1 = k
      · simp [Function.comp, hk]
      · simp [Function.comp, hk]
    rw [hkeys]
    constructor
    · exact Or.inl
    · rintro (hin | rfl)
      · exact hin
      · exact hm
  · simp only [hm, if_false]
    simp [jsKeys]

theorem jsSpread_get {κ α : Type} [DecidableEq κ] :
    ∀ (b : List (κ × α)), (jsKeys b).Nodup → ∀ (a : List (κ × α)) (k : κ),
      jsGet (jsSpread a b) k =
        match jsGet b k with
        | some v => some v
        | none => jsGet a k := by
  intro b
  induction b with
  | nil => intro _ a k; rfl
  | cons kv rest ih =>
    obtain ⟨k₀, v₀⟩ := kv
    intro hnd a k
    have hnd2 : k₀ ∉ jsKeys rest ∧ (jsKeys rest).Nodup :=
      List.nodup_cons.mp hnd
    show jsGet (jsSpread (objSet a k₀ v₀) rest) k = _
    rw [ih hnd2.2 (objSet a k₀ v₀) k]
    by_cases hk : k₀ = k
    · subst hk
      have hrest : jsGet rest k₀ = none := jsGet_eq_none_of_not_mem hnd2.1
      rw [hrest]
      simp [jsGet, objSet_get_self]
    · have hne : k ≠ k₀ := fun e => hk e.symm
      simp only [jsGet, hk, if_false]
      cases hg : jsGet rest k with
      | some w => rfl
      | none => simp [objSet_get_other a v₀ hne]

theorem jsSpread_keys {κ α : Type} [DecidableEq κ] :
    ∀ (b a : List (κ × α)) (k : κ),
      k ∈ jsKeys (jsSpread a b) ↔ k ∈ jsKeys a ∨ k ∈ jsKeys b := by
  intro b
  induction b with
  | nil => intro a k; simp [jsSpread, jsKeys]
  | cons kv rest ih =>
    obtain ⟨k₀, v₀⟩ := kv
    intro a k
    show k ∈ jsKeys (jsSpread (objSet a k₀ v₀) rest) ↔ _
    rw [ih (objSet a k₀ v₀) k, objSet_keys_mem a k₀ k v₀]
    constructor
    · rintro ((hin | rfl) | hr)
      · exact Or.inl hin
      · exact Or.inr (by simp [jsKeys])
      · exact Or.inr (by simp [jsKeys]; right; simpa [jsKeys] using hr)
    · rintro (hin | hc)
      · exact Or.inl (Or.inl hin)
      · simp [jsKeys] at hc
        rcases hc with rfl | hr
        · exact Or.inl (Or.inr rfl)
        · exact Or.inr (by simpa [jsKeys] using hr)

/-- C10: the optimistically cached record for an annotation PATCH is
exactly the patch body merged over `{ id: params.id }` — the `id`
field is the id from the request params unless the body itself carries one,
every non-`id` field reads exactly as in the body, and the record has
no keys beyond `id` and the keys of the body (in particular none taken
from the previous record, which is never consulted). -/
theorem claim_C10_optimistic_update :
    ∀ {α : Type} (paramsId : α) (body : List (String × α)),
      (jsKeys body).Nodup →
      jsGet (AnnotationResource.optimisticUpdate paramsId body) "id" =
        some ((jsGet body "id").getD paramsId)
      ∧ (∀ k, k ≠ "id" →
          jsGet (AnnotationResource.optimisticUpdate paramsId body) k =
            jsGet body k)
      ∧ (∀ k, k ∈ jsKeys (AnnotationResource.optimisticUpdate paramsId body) ↔
          (k = "id" ∨ k ∈ jsKeys body)) := by
  intro α paramsId body hnd
  refine ⟨?_, ?_, ?_⟩
  · rw [AnnotationResource.optimisticUpdate, jsSpread_get body hnd]
    cases hg : jsGet body "id" with
    | some w => rfl
    | none => simp [jsGet]
  · intro k hk
    rw [AnnotationResource.optimisticUpdate, jsSpread_get body hnd]
    cases hg : jsGet body k with
    | some w => rfl
    | none =>
      have h2 : ¬ "id" = k := fun e => hk e.symm
      simp [jsGet, h2, hg]
  · intro k
    rw [AnnotationResource.optimisticUpdate, jsSpread_keys body _ k]
    simp [jsKeys]

/-- C10 witness: patching `{label: "x"}` on annotation id "A1" caches
`{id: "A1", label: "x"}`. -/
theorem claim_C10_witness :
    jsGet (AnnotationResource.optimisticUpdate "A1" [("label", "x")]) "id" =
      some ((jsGet [("label", "x")] "id").getD "A1") :=
  (claim_C10_optimistic_update "A1" [("label", "x")] (by decide)).1

/-! ## Claim theorems: query-parameter serialization (C4) -/

theorem sortParams_perm_eq (e1 e2 : List (String × String)) (hp : e1.Perm e2)
    (hnd : (e1.map Prod.fst).Nodup) : sortParams e1 = sortParams e2 := by
  haveI hto : IsTotal (String × String) (fun p q => p.1 ≤ q.1) :=
    ⟨fun a b => le_total a.1 b.1⟩
  haveI htr : IsTrans (String × String) (fun p q => p.1 ≤ q.1) :=
    ⟨fun a b c h1 h2 => le_trans h1 h2⟩
  have s1 : List.Sorted (fun p q : String × String => p.1 ≤ q.1)
      (sortParams e1) := List.sorted_insertionSort _ e1
  have s2 : List.Sorted (fun p q : String × String => p.1 ≤ q.1)
      (sortParams e2) := List.sorted_insertionSort _ e2
  have p1 : (sortParams e1).Perm e1 := List.perm_insertionSort _ e1
  have p2 : (sortParams e2).Perm e2 := List.perm_insertionSort _ e2
  have hperm : (sortParams e1).Perm (sortParams e2) :=
    p1.trans (hp.trans p2.symm)
  have hnd1 : ((sortParams e1).map Prod.fst).Nodup :=
    ((p1.map Prod.fst).nodup_iff).mpr hnd
  have hnd2 : ((sortParams e2).map Prod.fst).Nodup :=
    ((hperm.map Prod.fst).nodup_iff).mp hnd1
  have hlt1 : List.Sorted (fun p q : String × String => p.1 < q.1)
      (sortParams e1) := by
    have hne := (List.pairwise_map.mp hnd1)
    exact (s1.and hne).imp (fun h => lt_of_le_of_ne h.1 h.2)
  have hlt2 : List.Sorted (fun p q : String × String => p.1 < q.1)
      (sortParams e2) := by
    have hne := (List.pairwise_map.mp hnd2)
    exact (s2.and hne).imp (fun h => lt_of_le_of_ne h.1 h.2)
  haveI : IsAntisymm (String × String) (fun p q => p.1 < q.1) :=
    ⟨fun a b h1 h2 => absurd (lt_trans h1 h2) (lt_irrefl _)⟩
  exact List.eq_of_perm_of_sorted hperm hlt1 hlt2

/-- C4: list URLs built from the same query parameters in different
insertion orders (query keys are distinct, as properties of one
JavaScript object) are character-for-character identical, for both
the layer and the annotation list builders. -/
theorem claim_C4_query_order_irrelevant :
    ∀ (pid lid : String) (e1 e2 : List (String × String)),
      e1.Perm e2 → (e1.map Prod.fst).Nodup →
      LayerResource.listUrl (some ⟨some pid, e1⟩) =
        LayerResource.listUrl (some ⟨some pid, e2⟩)
      ∧ AnnotationResource.listUrl (some ⟨some pid, some lid, e1⟩) =
        AnnotationResource.listUrl (some ⟨some pid, some lid, e2⟩) := by
  intro pid lid e1 e2 hp hnd
  have hs : serializeParams e1 = serializeParams e2 := by
    unfold serializeParams
    rw [sortParams_perm_eq e1 e2 hp hnd]
  have hlen : e1.length = e2.length := hp.length_eq
  constructor
  · simp [LayerResource.listUrl, LayerResource.keyCount, hs, hlen]
  · simp [AnnotationResource.listUrl, AnnotationResource.keyCount, hs, hlen]

/-- C4 witness: the parameter lists `[b=2, a=1]` and `[a=1, b=2]`
produce the same layer-list URL. -/
theorem claim_C4_witness :
    LayerResource.listUrl (some ⟨some "P1", [("b", "2"), ("a", "1")]⟩) =
      LayerResource.listUrl (some ⟨some "P1", [("a", "1"), ("b", "2")]⟩) :=
  (claim_C4_query_order_irrelevant "P1" "L1" [("b", "2"), ("a", "1")]
    [("a", "1"), ("b", "2")] (by decide) (by decide)).1




end ThKB
